import Mathlib

/-!
The `try` directory selector (Go port): scoring, ranking and the selector loop.

A shallow embedding of `src/try.go` and of `getWinSize` from
`src/platform_linux.go`.

* A Go `string` is a sequence of bytes (`GoString`); `len`, indexing and slicing
  are byte operations, while `[]rune(s)` decodes UTF-8 (`runes`).
* A `float64` is read as an exact rational; rounding is not modelled.  The only
  non-finite value the program can produce is `+Inf`, from dividing a positive
  constant by the `0` that `sqrt` returns for a non-positive argument, so a
  score is a `WithTop ℚ`.
  Inside the subsequence walk every divisor is positive (`matchLoop_inv`,
  `sqrt_pos`), so plain rational division is used there.
* A Go `int` is an `Int`: cursor, scroll offset and indices are bounded by the
  number of candidates and the terminal size, far below the 64-bit range.
* `time.Now()`, the terminal size, the keys read and the directory listing are
  inputs of the functions that consult them; one call of `getTries` sees one
  clock reading.
-/

namespace Try

/-! ## Go strings and runes -/

/-- A Go string: its bytes, each in the range 0..255. -/
abbrev GoString := List Nat

/-- UTF-8 continuation byte test (`10xxxxxx`). -/
def isCont (b : Nat) : Bool := decide (0x80 ≤ b) && decide (b ≤ 0xBF)

/-- Go `utf8.DecodeRuneInString`: the first rune of `s` and its width in bytes;
a byte that does not start a well-formed encoding gives U+FFFD with width 1. -/
def decodeRune (s : GoString) : Nat × Nat :=
  match s with
  | [] => (0xFFFD, 0)
  | b0 :: rest =>
    if b0 < 0x80 then (b0, 1)
    else if 0xC2 ≤ b0 ∧ b0 ≤ 0xDF then
      match rest with
      | b1 :: _ => if isCont b1 then ((b0 % 32) * 64 + b1 % 64, 2) else (0xFFFD, 1)
      | _ => (0xFFFD, 1)
    else if 0xE0 ≤ b0 ∧ b0 ≤ 0xEF then
      match rest with
      | b1 :: b2 :: _ =>
        if (if b0 = 0xE0 then decide (0xA0 ≤ b1) && decide (b1 ≤ 0xBF)
            else if b0 = 0xED then decide (0x80 ≤ b1) && decide (b1 ≤ 0x9F)
            else isCont b1) && isCont b2
        then ((b0 % 16) * 4096 + (b1 % 64) * 64 + b2 % 64, 3)
        else (0xFFFD, 1)
      | _ => (0xFFFD, 1)
    else if 0xF0 ≤ b0 ∧ b0 ≤ 0xF4 then
      match rest with
      | b1 :: b2 :: b3 :: _ =>
        if (if b0 = 0xF0 then decide (0x90 ≤ b1) && decide (b1 ≤ 0xBF)
            else if b0 = 0xF4 then decide (0x80 ≤ b1) && decide (b1 ≤ 0x8F)
            else isCont b1) && isCont b2 && isCont b3
        then ((b0 % 8) * 262144 + (b1 % 64) * 4096 + (b2 % 64) * 64 + b3 % 64, 4)
        else (0xFFFD, 1)
      | _ => (0xFFFD, 1)
    else (0xFFFD, 1)

/-- Decoding loop of `[]rune(s)`; `fuel` bounds the number of runes. -/
def runesAux : Nat → GoString → List Nat
  | 0, _ => []
  | fuel + 1, s =>
    if s = [] then [] else (decodeRune s).1 :: runesAux fuel (s.drop (decodeRune s).2)

/-- Go conversion `[]rune(s)`: a string of `n` bytes has at most `n` runes. -/
def runes (s : GoString) : List Nat := runesAux s.length s

/-- Go conversion `string(r)` of one rune: its UTF-8 encoding, U+FFFD for a
surrogate or a value above U+10FFFF. -/
def encodeRune (r : Nat) : GoString :=
  if r < 0x80 then [r]
  else if r < 0x800 then [0xC0 + r / 64, 0x80 + r % 64]
  else if (0xD800 ≤ r ∧ r ≤ 0xDFFF) ∨ 0x10FFFF < r then [0xEF, 0xBF, 0xBD]
  else if r < 0x10000 then [0xE0 + r / 4096, 0x80 + r / 64 % 64, 0x80 + r % 64]
  else [0xF0 + r / 262144, 0x80 + r / 4096 % 64, 0x80 + r / 64 % 64, 0x80 + r % 64]

/-- The bytes of a string literal of the Go source (UTF-8). -/
def goStr (s : String) : GoString := (s.toList.map fun c => encodeRune c.toNat).flatten

/-- Parts of the Go standard library the program calls whose tables or code are
outside this repository. -/
structure GoLib where
  /-- Table part of `unicode.ToLower`, for runes above U+007F. -/
  lowerTable : Nat → Nat
  /-- Table part of `unicode.IsLetter`, for runes above U+007F. -/
  letterTable : Nat → Bool
  /-- Table part of `unicode.IsDigit`, for runes above U+007F. -/
  digitTable : Nat → Bool
  /-- The function `strings.TrimSpace`. -/
  trimSpace : GoString → GoString
  /-- The function `filepath.Join` of two elements. -/
  pathJoin : GoString → GoString → GoString

/-- Go `unicode.ToLower`: the ASCII branch is code, the rest a table lookup. -/
def unicodeToLower (lib : GoLib) (r : Nat) : Nat :=
  if r ≤ 0x7F then (if 0x41 ≤ r ∧ r ≤ 0x5A then r + 0x20 else r)
  else lib.lowerTable r

/-- The runes of `strings.ToLower(s)`, that is `[]rune(strings.ToLower(s))`:
`ToLower` maps `unicode.ToLower` over the runes of `s`. -/
def lowerRunes (lib : GoLib) (s : GoString) : List Nat :=
  (runes s).map (unicodeToLower lib)

/-! ## Scoring -/

/-- Source `isAlphaNumRune`. -/
def isAlphaNumRune (r : Nat) : Bool :=
  (decide (0x61 ≤ r) && decide (r ≤ 0x7A)) || (decide (0x41 ≤ r) && decide (r ≤ 0x5A))
    || (decide (0x30 ≤ r) && decide (r ≤ 0x39))

/-- Source `sqrt`: ten Newton steps from `z = x`, and `0` for `x ≤ 0`. -/
def sqrt (x : ℚ) : ℚ :=
  if x ≤ 0 then 0 else Nat.iterate (fun z => (1 / 2) * (z + x / z)) 10 x

/-- Float division of a positive constant by a value that is never negative:
`+Inf` when the divisor is `0`. -/
def fdiv (a b : ℚ) : WithTop ℚ :=
  if b = 0 then ⊤ else ((a / b : ℚ) : WithTop ℚ)

/-- Whether `strconv.Atoi` accepts `s` (the path taken for fewer than 19 bytes):
an optional sign followed by at least one byte, all of them decimal digits. -/
def atoiOk (s : GoString) : Bool :=
  match s with
  | [] => false
  | c :: t =>
    let digits := if c = 0x2D ∨ c = 0x2B then t else c :: t
    !digits.isEmpty && digits.all fun ch => decide (0x30 ≤ ch) && decide (ch ≤ 0x39)

/-- The guard `len(s) >= 11 && s[4] == '-' && s[7] == '-' && s[10] == '-'`,
shared by `calculateScore` and `splitDateName`. -/
def dashShape (s : GoString) : Bool :=
  decide (11 ≤ s.length) && s.getD 4 0 == 0x2D && s.getD 7 0 == 0x2D && s.getD 10 0 == 0x2D

/-- The date-token step of `calculateScore`: `2.0` when the guard holds and
`strconv.Atoi(text[0:4])` succeeds, else `0.0`. -/
def dateBonus (text : GoString) : ℚ :=
  if dashShape text && atoiOk (text.take 4) then 2 else 0

/-- Loop variables of the subsequence walk of `calculateScore`. -/
structure MatchState where
  score : ℚ
  lastPos : Int
  qidx : Nat
deriving DecidableEq

/-- The body of the loop for a rune `r` at index `pos` that equals
`qchars[qidx]`. -/
def matchHit (tl : List Nat) (pos : Nat) (st : MatchState) : MatchState :=
  let s1 := st.score + 1
  let s2 := if pos = 0 ∨ !isAlphaNumRune (tl.getD (pos - 1) 0) then s1 + 1 else s1
  let s3 := if 0 ≤ st.lastPos then s2 + 1 / sqrt ((((pos : Int) - st.lastPos - 1 + 1 : Int) : ℚ))
            else s2
  { score := s3, lastPos := pos, qidx := st.qidx + 1 }

/-- The loop `for pos, r := range []rune(tl)` from index `pos` on, `rest` being
the runes still to visit. -/
def matchLoop (tl qchars : List Nat) : Nat → List Nat → MatchState → MatchState
  | _, [], st => st
  | pos, r :: rest, st =>
    if qchars.length ≤ st.qidx then st
    else if r ≠ qchars.getD st.qidx 0 then matchLoop tl qchars (pos + 1) rest st
    else matchLoop tl qchars (pos + 1) rest (matchHit tl pos st)

/-- The state of the walk when the loop of `calculateScore` ends. -/
def matchRun (lib : GoLib) (text query : GoString) (score0 : ℚ) : MatchState :=
  matchLoop (lowerRunes lib text) (lowerRunes lib query) 0 (lowerRunes lib text)
    { score := score0, lastPos := -1, qidx := 0 }

/-- The factor `float64(len(qchars)) / float64(lastPos+1)`. -/
def scaleFactor (qchars : List Nat) (st : MatchState) : ℚ :=
  (qchars.length : ℚ) / ((st.lastPos + 1 : Int) : ℚ)

/-- The block `if query != ""` of `calculateScore` applied to the score so
far: `none` is the early `return 0.0`. -/
def matchScore (lib : GoLib) (text query : GoString) (score0 : ℚ) : Option ℚ :=
  if query ≠ [] then
    let st := matchRun lib text query score0
    if st.qidx < (lowerRunes lib query).length then none
    else
      let s1 := if 0 ≤ st.lastPos then st.score * scaleFactor (lowerRunes lib query) st
                else st.score
      some (s1 * (10 / ((text.length : ℚ) + 10)))
  else some score0

/-- The recency terms of `calculateScore` added to `score`. -/
def addRecency (score : ℚ) (ctime mtime now : ℚ) : WithTop ℚ :=
  let s1 : WithTop ℚ :=
    if 0 < ctime then (score : WithTop ℚ) + fdiv 2 (sqrt ((now - ctime) / 86400 + 1))
    else (score : WithTop ℚ)
  if 0 < mtime then s1 + fdiv 3 (sqrt ((now - mtime) / 3600 + 1)) else s1

/-- Source `calculateScore`; `now` is the reading of `time.Now()` in seconds. -/
def calculateScore (lib : GoLib) (text query : GoString) (ctime mtime now : ℚ) : WithTop ℚ :=
  match matchScore lib text query (dateBonus text) with
  | none => 0
  | some score => addRecency score ctime mtime now

/-- A library instance for evaluating examples: identity case table above
U+007F, no letters or digits there, no trimming, and joining with a slash. -/
def asciiLib : GoLib where
  lowerTable := fun r => r
  letterTable := fun _ => false
  digitTable := fun _ => false
  trimSpace := fun s => s
  pathJoin := fun a b => a ++ [0x2F] ++ b

/-! ## Candidates and ranking -/

/-- Source `tryDir`. -/
structure TryDir where
  Basename : GoString
  Path : GoString
  Ctime : ℚ
  Mtime : ℚ
  Score : WithTop ℚ
deriving DecidableEq

/-- Source `result`; `Kind` is the field `Type`, "cd" or "mkdir". -/
structure Result where
  Kind : GoString
  Path : GoString
deriving DecidableEq

/-- Source `selector`; a `nil` slice `tries` is the empty list. -/
structure Selector where
  basePath : GoString
  inputBuffer : GoString
  cursorPos : Int
  scrollOffset : Int
  termW : Int
  termH : Int
  tries : List TryDir
  selected : Option Result
deriving DecidableEq

/-- What one call of `getTries` observes outside the program: the clock, and
the directories `os.ReadDir` and `os.Stat` would report, as the `tryDir`
values `loadTries` builds from them. -/
structure World where
  now : ℚ
  dirs : List TryDir

/-- Source `strings.ReplaceAll(s, old, new)` for one-byte `old` and `new`. -/
def replaceByte (s : GoString) (old new : Nat) : GoString :=
  s.map fun b => if b = old then new else b

/-- Source `newSelector` (the `os.MkdirAll` call has no effect on the value). -/
def newSelector (lib : GoLib) (search basePath : GoString) : Selector :=
  { basePath := basePath
    inputBuffer := replaceByte (lib.trimSpace (replaceByte search 0x09 0x20)) 0x20 0x2D
    cursorPos := 0
    scrollOffset := 0
    termW := 80
    termH := 24
    tries := []
    selected := none }

/-- Source `loadTries`: the cached list when there is one, else the listing,
which is stored in the cache. -/
def loadTries (s : Selector) (dirs : List TryDir) : List TryDir × Selector :=
  if s.tries ≠ [] then (s.tries, s) else (dirs, { s with tries := dirs })

/-- The comparison `list[i].Score > list[j].Score` of `getTries`, as the order
the sorted slice obeys: no element has a smaller score than a later one. -/
def scoreGe (a b : TryDir) : Prop := b.Score ≤ a.Score

instance scoreGe_decidable : DecidableRel scoreGe := fun a b =>
  inferInstanceAs (Decidable (b.Score ≤ a.Score))

instance scoreGe_total : IsTotal TryDir scoreGe := ⟨fun a b => le_total b.Score a.Score⟩

instance scoreGe_trans : IsTrans TryDir scoreGe := ⟨fun _ _ _ hab hbc => le_trans hbc hab⟩

/-- Library `sort.Slice` with the comparison of `getTries`, modelled by an
insertion sort; the order the library gives to equal scores is unspecified. -/
def sortSlice (l : List TryDir) : List TryDir := l.insertionSort scoreGe

/-- The first loop of `getTries`: every candidate with its score for `query`. -/
def scoreAll (lib : GoLib) (base : List TryDir) (query : GoString) (now : ℚ) : List TryDir :=
  base.map fun t => { t with Score := calculateScore lib t.Basename query t.Ctime t.Mtime now }

/-- The body of `getTries` after `loadTries`. -/
def rankTries (lib : GoLib) (base : List TryDir) (query : GoString) (now : ℚ) : List TryDir :=
  if query = [] then sortSlice (scoreAll lib base query now)
  else sortSlice ((scoreAll lib base query now).filter fun t => 0 < t.Score)

/-- Source `selector.getTries`: the ranked list and the selector with its cache. -/
def getTries (lib : GoLib) (s : Selector) (w : World) : List TryDir × Selector :=
  (rankTries lib (loadTries s w.dirs).1 s.inputBuffer w.now, (loadTries s w.dirs).2)

/-! ## The selector loop -/

/-- Source `winsize`, the fields the program reads. -/
structure Winsize where
  row : Nat
  col : Nat

/-- Source `getWinSize`; `none` is a failed ioctl. -/
def getWinSize (ws : Option Winsize) : Int × Int :=
  match ws with
  | none => (80, 24)
  | some z => if z.col = 0 ∨ z.row = 0 then (80, 24) else ((z.col : Int), (z.row : Int))

/-- Source `updateTermSize`. -/
def updateTermSize (s : Selector) (ws : Option Winsize) : Selector :=
  let w := (getWinSize ws).1
  let h := (getWinSize ws).2
  { s with termW := if w ≤ 0 then 80 else w, termH := if h ≤ 0 then 24 else h }

/-- The number of list rows `render` shows: `max(3, s.termH-8)`. -/
def maxVisible (s : Selector) : Int := max 3 (s.termH - 8)

/-- Source `render`, the state it leaves (the text it prints is not modelled). -/
def render (lib : GoLib) (s : Selector) (ws : Option Winsize) (w : World) : Selector :=
  let s1 := (getTries lib (updateTermSize s ws) w).2
  if s1.cursorPos < s1.scrollOffset then { s1 with scrollOffset := s1.cursorPos }
  else if s1.cursorPos ≥ s1.scrollOffset + maxVisible s1 then
    { s1 with scrollOffset := s1.cursorPos - maxVisible s1 + 1 }
  else s1

/-- Source `handleSelection`. -/
def handleSelection (s : Selector) (td : TryDir) : Selector :=
  { s with selected := some { Kind := goStr "cd", Path := td.Path } }

/-- The `mkdir` result for the directory name `date + "-" + name` with spaces
replaced by hyphens, joined to `basePath`. -/
def mkdirResult (lib : GoLib) (basePath date name : GoString) : Result :=
  { Kind := goStr "mkdir"
    Path := lib.pathJoin basePath (replaceByte (date ++ goStr "-" ++ name) 0x20 0x2D) }

/-- Source `handleCreateNew`; `date` is `time.Now().Format("2006-01-02")` and
`line` what the prompt reads when the query is empty. -/
def handleCreateNew (lib : GoLib) (s : Selector) (date line : GoString) : Selector :=
  if s.inputBuffer ≠ [] then
    { s with selected := some (mkdirResult lib s.basePath date s.inputBuffer) }
  else if lib.trimSpace line = [] then s
  else { s with selected := some (mkdirResult lib s.basePath date (lib.trimSpace line)) }

/-- Go `unicode.IsLetter`: ASCII letters, and the table above U+007F. -/
def unicodeIsLetter (lib : GoLib) (r : Nat) : Bool :=
  if r ≤ 0x7F then (decide (0x41 ≤ r) && decide (r ≤ 0x5A)) || (decide (0x61 ≤ r) && decide (r ≤ 0x7A))
  else lib.letterTable r

/-- Go `unicode.IsDigit`: ASCII digits, and the table above U+007F. -/
def unicodeIsDigit (lib : GoLib) (r : Nat) : Bool :=
  if r ≤ 0x7F then decide (0x30 ≤ r) && decide (r ≤ 0x39) else lib.digitTable r

/-- The test of the `default` case of `run` on the rune `r`. -/
def acceptsRune (lib : GoLib) (r : Nat) : Bool :=
  (unicodeIsLetter lib r || unicodeIsDigit lib r || (runes (goStr "-_. ")).contains r)
    && decide (32 ≤ r)

/-- What one turn of the loop of `run` reads from outside: the terminal size
and the world for `render`, the key, the worlds of the two later `getTries`
calls, today's date and the line typed at the new-name prompt. -/
structure Tick where
  winsize : Option Winsize
  wRender : World
  key : GoString
  wCount : World
  wEnter : World
  date : GoString
  line : GoString

/-- How one turn of the loop ends: the loop goes on, `run` returns a result
(`none` for Ctrl-C or ESC), or an index is out of range. -/
inductive Step where
  | next (s : Selector)
  | done (r : Option Result)
  | crash
deriving DecidableEq

/-- Case `"\x1b[A", "\x10"` of the switch (Up or Ctrl-P). -/
def keyUp (s : Selector) : Step :=
  if 0 < s.cursorPos then .next { s with cursorPos := s.cursorPos - 1 } else .next s

/-- Case `"\x1b[B", "\x0e"` of the switch (Down or Ctrl-N). -/
def keyDown (s : Selector) (totalItems : Int) : Step :=
  if s.cursorPos < totalItems - 1 then .next { s with cursorPos := s.cursorPos + 1 } else .next s

/-- The test `if s.selected != nil` that ends case Enter. -/
def returnSelected (s : Selector) : Step :=
  match s.selected with
  | some r => .done (some r)
  | none => .next s

/-- Case `"\r", "\n"` of the switch (Enter); indexing `tries` with a negative
cursor is the out-of-range crash. -/
def keyEnter (lib : GoLib) (s : Selector) (w : World) (date line : GoString) : Step :=
  let tries := (getTries lib s w).1
  let s2 := (getTries lib s w).2
  if s2.cursorPos < (tries.length : Int) then
    if s2.cursorPos < 0 then .crash
    else
      match tries.get? s2.cursorPos.toNat with
      | some td => returnSelected (handleSelection s2 td)
      | none => .crash
  else returnSelected (handleCreateNew lib s2 date line)

/-- Case `"\x7f", "\b"` of the switch (Backspace or Delete). -/
def keyBackspace (s : Selector) : Step :=
  if 0 < s.inputBuffer.length then
    .next { s with inputBuffer := s.inputBuffer.take (s.inputBuffer.length - 1), cursorPos := 0 }
  else .next { s with cursorPos := 0 }

/-- The `default` case of the switch. -/
def keyDefault (lib : GoLib) (s : Selector) (key : GoString) : Step :=
  if key.length = 1 then
    if acceptsRune lib ((runes key).headD 0) then
      .next { s with inputBuffer := s.inputBuffer ++ encodeRune ((runes key).headD 0),
                     cursorPos := 0 }
    else .next s
  else .next s

/-- The `switch key` of `run`, with the `totalItems` line before it. -/
def handleKey (lib : GoLib) (s : Selector) (t : Tick) : Step :=
  let totalItems : Int := ((getTries lib s t.wCount).1.length : Int) + 1
  let s1 := (getTries lib s t.wCount).2
  if t.key = [0x1B, 0x5B, 0x41] ∨ t.key = [0x10] then keyUp s1
  else if t.key = [0x1B, 0x5B, 0x42] ∨ t.key = [0x0E] then keyDown s1 totalItems
  else if t.key = [0x0D] ∨ t.key = [0x0A] then keyEnter lib s1 t.wEnter t.date t.line
  else if t.key = [0x7F] ∨ t.key = [0x08] then keyBackspace s1
  else if t.key = [0x03] ∨ t.key = [0x1B] then .done none
  else keyDefault lib s1 t.key

/-- One turn of the loop of `run`: `render`, then the key. -/
def iterate (lib : GoLib) (s : Selector) (t : Tick) : Step :=
  handleKey lib (render lib s t.winsize t.wRender) t

/-- The loop of `run` over the turns in `ticks`; `next s` when they are used
up and the loop is still going. -/
def runLoop (lib : GoLib) : Selector → List Tick → Step
  | s, [] => .next s
  | s, t :: ts =>
    match iterate lib s t with
    | .next s1 => runLoop lib s1 ts
    | .done r => .done r
    | .crash => .crash

/-- The number of rows `getTries` returns for the list `base` and `query`,
stated without the clock: all of `base` for the empty query, else the names of
which the lower-cased query is a subsequence. -/
def matchCount (lib : GoLib) (base : List TryDir) (query : GoString) : Nat :=
  if query = [] then base.length
  else (base.filter fun t =>
    decide (List.Sublist (lowerRunes lib query) (lowerRunes lib t.Basename))).length

/-- The cursor is on a row of the virtual list: a candidate or the row after
the last one. -/
def cursorOk (lib : GoLib) (s : Selector) : Prop :=
  0 ≤ s.cursorPos ∧ s.cursorPos ≤ (matchCount lib s.tries s.inputBuffer : Int)

/-! ## Example inputs -/

/-- Two candidate directories under the base path "/t". -/
def exDirs : List TryDir :=
  [ { Basename := goStr "2024-01-01-alpha", Path := goStr "/t/2024-01-01-alpha",
      Ctime := 100, Mtime := 200, Score := 0 },
    { Basename := goStr "beta-try", Path := goStr "/t/beta-try",
      Ctime := 300, Mtime := 400, Score := 0 } ]

/-- A world with the clock at 1000 seconds and the directories `exDirs`. -/
def exWorld : World := { now := 1000, dirs := exDirs }

/-- A turn of the loop in an 80x24 terminal on 2024-05-06 that reads `key`. -/
def exTick (key : GoString) : Tick :=
  { winsize := some { row := 24, col := 80 }, wRender := exWorld, key := key,
    wCount := exWorld, wEnter := exWorld, date := goStr "2024-05-06", line := [] }

/-- A selector with base path "/t", the given query and cursor, and an empty
cache. -/
def exSelector (query : GoString) (cursor : Int) : Selector :=
  { basePath := goStr "/t", inputBuffer := query, cursorPos := cursor, scrollOffset := 0,
    termW := 80, termH := 24, tries := [], selected := none }

/-! ## Rendering helpers -/

/-- Source `splitDateName`: `none` is the `nil` result. -/
def splitDateName (s : GoString) : Option (GoString × GoString) :=
  if dashShape s then some (s.take 10, s.drop 11) else none

/-! ## The score without the date-token step -/

/-- The computation of `calculateScore` with the date-token step omitted: the
score starts at `0.0` and goes through the same match block and the same
recency terms. -/
def calculateScoreNoDate (lib : GoLib) (text query : GoString) (ctime mtime now : ℚ) :
    WithTop ℚ :=
  match matchScore lib text query 0 with
  | none => 0
  | some score => addRecency score ctime mtime now

/-! ## Joining paths -/

/-- The elements of a path between its separators `/`; `cur` collects the
bytes of the element being read. -/
def splitSlash : GoString → GoString → List GoString
  | [], cur => [cur]
  | b :: rest, cur => if b = 0x2F then cur :: splitSlash rest [] else splitSlash rest (cur ++ [b])

/-- The element loop of Go `filepath.Clean` on Unix; `out` holds the elements
written so far, last one first.  Empty and `.` elements are dropped, `..`
removes the last written element when there is one that is not itself `..`,
is dropped at the root, and is kept in front of a relative path. -/
def cleanElems (rooted : Bool) : List GoString → List GoString → List GoString
  | [], out => out.reverse
  | e :: rest, out =>
    if e = [] ∨ e = [0x2E] then cleanElems rooted rest out
    else if e = [0x2E, 0x2E] then
      match out with
      | top :: below =>
        if top = [0x2E, 0x2E] then cleanElems rooted rest (e :: out)
        else cleanElems rooted rest below
      | [] => if rooted then cleanElems rooted rest [] else cleanElems rooted rest [e]
    else cleanElems rooted rest (e :: out)

/-- Go `filepath.Clean` on Unix: the shortest equivalent path, `.` for an empty
result. -/
def filepathClean (p : GoString) : GoString :=
  let rooted := p.head? == some 0x2F
  let body := [0x2F].intercalate (cleanElems rooted (splitSlash p []) [])
  if rooted then 0x2F :: body else if body = [] then [0x2E] else body

/-- Go `filepath.Join` of two elements on Unix: empty elements are ignored and
the rest joined by `/` and cleaned. -/
def filepathJoin (a b : GoString) : GoString :=
  if a = [] then (if b = [] then [] else filepathClean b)
  else if b = [] then filepathClean a
  else filepathClean (a ++ [0x2F] ++ b)

/-- A library instance whose `pathJoin` is `filepathJoin`; the other parts are
those of `asciiLib`. -/
def unixLib : GoLib :=
  { asciiLib with pathJoin := filepathJoin }

/-! ## Facts about the decoder and the walk -/

theorem runes_eq_nil_iff (s : GoString) : runes s = [] ↔ s = [] := by
  cases s with
  | nil => exact ⟨fun _ => rfl, fun _ => rfl⟩
  | cons b0 rest => simp [runes, runesAux]

theorem lowerRunes_eq_nil_iff (lib : GoLib) (s : GoString) : lowerRunes lib s = [] ↔ s = [] := by
  simp [lowerRunes, runes_eq_nil_iff]

theorem matchLoop_qidx_le (tl qchars : List Nat) :
    ∀ (rest : List Nat) (pos : Nat) (st : MatchState), st.qidx ≤ qchars.length →
      (matchLoop tl qchars pos rest st).qidx ≤ qchars.length := by
  intro rest
  induction rest with
  | nil => intro pos st h; simpa [matchLoop] using h
  | cons r rest ih =>
    intro pos st h
    unfold matchLoop
    split_ifs with h1 h2
    · exact h
    · exact ih _ _ h
    · apply ih
      simp only [matchHit]
      omega

/-- The greedy walk consumes the whole query exactly when the part of the
query not yet consumed is a subsequence of the runes still to visit. -/
theorem matchLoop_full_iff (tl qchars : List Nat) :
    ∀ (rest : List Nat) (pos : Nat) (st : MatchState), st.qidx ≤ qchars.length →
      ((matchLoop tl qchars pos rest st).qidx = qchars.length ↔
        List.Sublist (qchars.drop st.qidx) rest) := by
  intro rest
  induction rest with
  | nil =>
    intro pos st h
    simp only [matchLoop, List.sublist_nil, List.drop_eq_nil_iff]
    omega
  | cons r rest ih =>
    intro pos st h
    unfold matchLoop
    split_ifs with h1 h2
    · have : st.qidx = qchars.length := by omega
      simp [this]
    · have hlt : st.qidx < qchars.length := by omega
      rw [ih _ _ h]
      have hd : qchars.drop st.qidx = qchars.getD st.qidx 0 :: qchars.drop (st.qidx + 1) := by
        rw [List.getD_eq_getElem _ _ hlt]
        exact List.drop_eq_getElem_cons hlt
      rw [hd]
      constructor
      · intro hs
        exact List.Sublist.cons _ hs
      · intro hs
        cases hs with
        | cons _ hs => exact hs
        | cons₂ _ hs => exact absurd rfl h2
    · have hlt : st.qidx < qchars.length := by omega
      have hr : r = qchars.getD st.qidx 0 := by
        by_contra hne
        exact h2 hne
      have hq : (matchHit tl pos st).qidx = st.qidx + 1 := rfl
      rw [ih _ _ (by rw [hq]; omega), hq]
      have hd : qchars.drop st.qidx = r :: qchars.drop (st.qidx + 1) := by
        rw [hr, List.getD_eq_getElem _ _ hlt]
        exact List.drop_eq_getElem_cons hlt
      rw [hd, List.cons_sublist_cons]

theorem matchRun_full_iff (lib : GoLib) (text query : GoString) (score0 : ℚ) :
    (matchRun lib text query score0).qidx = (lowerRunes lib query).length ↔
      List.Sublist (lowerRunes lib query) (lowerRunes lib text) := by
  have h := matchLoop_full_iff (lowerRunes lib text) (lowerRunes lib query) (lowerRunes lib text) 0
    { score := score0, lastPos := -1, qidx := 0 } (Nat.zero_le _)
  simpa [matchRun] using h

theorem matchRun_qidx_le (lib : GoLib) (text query : GoString) (score0 : ℚ) :
    (matchRun lib text query score0).qidx ≤ (lowerRunes lib query).length :=
  matchLoop_qidx_le _ _ _ _ _ (Nat.zero_le _)

/-- With a query that is not a subsequence the block returns early. -/
theorem matchScore_eq_none (lib : GoLib) (text query : GoString) (score0 : ℚ)
    (h : ¬ List.Sublist (lowerRunes lib query) (lowerRunes lib text)) :
    matchScore lib text query score0 = none := by
  have hq : query ≠ [] := by
    intro hq
    apply h
    rw [hq]
    exact List.nil_sublist _
  have hlt : (matchRun lib text query score0).qidx < (lowerRunes lib query).length := by
    have h1 := matchRun_qidx_le lib text query score0
    have h2 := (matchRun_full_iff lib text query score0).not.mpr h
    omega
  simp [matchScore, hq, hlt]

/-! ## Facts about `sqrt` and the score -/

theorem newton_iterate_pos (x : ℚ) (hx : 0 < x) :
    ∀ (n : Nat) (z : ℚ), 0 < z → 0 < Nat.iterate (fun z => (1 / 2) * (z + x / z)) n z := by
  intro n
  induction n with
  | zero => intro z hz; simpa using hz
  | succ n ih =>
    intro z hz
    rw [Function.iterate_succ_apply]
    apply ih
    have : 0 < x / z := div_pos hx hz
    linarith

theorem sqrt_pos (x : ℚ) (hx : 0 < x) : 0 < sqrt x := by
  unfold sqrt
  rw [if_neg (not_le.mpr hx)]
  exact newton_iterate_pos x hx 10 x hx

theorem sqrt_nonneg (x : ℚ) : 0 ≤ sqrt x := by
  by_cases hx : 0 < x
  · exact le_of_lt (sqrt_pos x hx)
  · unfold sqrt
    rw [if_pos (not_lt.mp hx)]

theorem matchHit_score_ge (tl : List Nat) (pos : Nat) (st : MatchState) :
    st.score + 1 ≤ (matchHit tl pos st).score := by
  simp only [matchHit]
  have hs : (0 : ℚ) ≤ 1 / sqrt ((((pos : Int) - st.lastPos - 1 + 1 : Int) : ℚ)) :=
    div_nonneg zero_le_one (sqrt_nonneg _)
  split_ifs <;> linarith

/-- Invariants of the walk: every consumed query rune has added at least `1`
to the score, and the last matched index is at least the number of consumed
runes minus one. -/
theorem matchLoop_inv (tl qchars : List Nat) (c : ℚ) :
    ∀ (rest : List Nat) (pos : Nat) (st : MatchState),
      c + (st.qidx : ℚ) ≤ st.score → (st.qidx : Int) ≤ st.lastPos + 1 → st.lastPos < (pos : Int) →
      c + ((matchLoop tl qchars pos rest st).qidx : ℚ) ≤ (matchLoop tl qchars pos rest st).score ∧
        ((matchLoop tl qchars pos rest st).qidx : Int)
          ≤ (matchLoop tl qchars pos rest st).lastPos + 1 := by
  intro rest
  induction rest with
  | nil => intro pos st h1 h2 _; exact ⟨by simpa [matchLoop] using h1, by simpa [matchLoop] using h2⟩
  | cons r rest ih =>
    intro pos st h1 h2 h3
    unfold matchLoop
    split_ifs with ha hb
    · exact ⟨h1, h2⟩
    · exact ih (pos + 1) st h1 h2 (by push_cast; omega)
    · have hsc := matchHit_score_ge tl pos st
      have hq : (matchHit tl pos st).qidx = st.qidx + 1 := rfl
      have hl : (matchHit tl pos st).lastPos = (pos : Int) := rfl
      apply ih (pos + 1) (matchHit tl pos st)
      · rw [hq]; push_cast; linarith
      · rw [hq, hl]; push_cast; omega
      · rw [hl]; push_cast; omega

theorem matchRun_inv (lib : GoLib) (text query : GoString) (score0 : ℚ) :
    score0 + ((matchRun lib text query score0).qidx : ℚ) ≤ (matchRun lib text query score0).score ∧
      ((matchRun lib text query score0).qidx : Int)
        ≤ (matchRun lib text query score0).lastPos + 1 := by
  unfold matchRun
  apply matchLoop_inv
  · simp
  · simp
  · simp

theorem dateBonus_nonneg (text : GoString) : 0 ≤ dateBonus text := by
  unfold dateBonus
  split_ifs <;> norm_num

/-- The factor applied after a full match of a non-empty query lies in `(0, 1]`. -/
theorem scaleFactor_bounds (lib : GoLib) (text query : GoString) (score0 : ℚ)
    (hq : query ≠ []) (hm : List.Sublist (lowerRunes lib query) (lowerRunes lib text)) :
    0 ≤ (matchRun lib text query score0).lastPos ∧
      0 < scaleFactor (lowerRunes lib query) (matchRun lib text query score0) ∧
      scaleFactor (lowerRunes lib query) (matchRun lib text query score0) ≤ 1 := by
  have hfull := (matchRun_full_iff lib text query score0).mpr hm
  have hinv := (matchRun_inv lib text query score0).2
  have hlen : 0 < (lowerRunes lib query).length := by
    rw [List.length_pos]
    exact fun h => hq ((lowerRunes_eq_nil_iff lib query).mp h)
  rw [hfull] at hinv
  have hpos : (0 : ℚ) < (((matchRun lib text query score0).lastPos + 1 : Int) : ℚ) := by
    have : (0 : Int) < (matchRun lib text query score0).lastPos + 1 := by omega
    exact_mod_cast this
  refine ⟨by omega, ?_, ?_⟩
  · unfold scaleFactor
    apply div_pos _ hpos
    exact_mod_cast hlen
  · unfold scaleFactor
    rw [div_le_one hpos]
    exact_mod_cast hinv

/-- The value of the block after a full match of a non-empty query. -/
theorem matchScore_of_match (lib : GoLib) (text query : GoString) (score0 : ℚ)
    (hq : query ≠ []) (hm : List.Sublist (lowerRunes lib query) (lowerRunes lib text)) :
    matchScore lib text query score0 =
      some ((matchRun lib text query score0).score *
        scaleFactor (lowerRunes lib query) (matchRun lib text query score0) *
        (10 / ((text.length : ℚ) + 10))) := by
  have hfull := (matchRun_full_iff lib text query score0).mpr hm
  obtain ⟨hlast, _, _⟩ := scaleFactor_bounds lib text query score0 hq hm
  simp only [matchScore, if_pos hq, hfull, lt_irrefl, if_false, if_pos hlast]

/-- After a full match of a non-empty query the block yields a positive score. -/
theorem matchScore_pos (lib : GoLib) (text query : GoString) (score0 : ℚ) (h0 : 0 ≤ score0)
    (hq : query ≠ []) (hm : List.Sublist (lowerRunes lib query) (lowerRunes lib text)) :
    ∃ sc : ℚ, matchScore lib text query score0 = some sc ∧ 0 < sc := by
  have hfull := (matchRun_full_iff lib text query score0).mpr hm
  have hinv := (matchRun_inv lib text query score0).1
  obtain ⟨hlast, hfpos, _⟩ := scaleFactor_bounds lib text query score0 hq hm
  have hlen : 0 < (lowerRunes lib query).length := by
    rw [List.length_pos]
    exact fun h => hq ((lowerRunes_eq_nil_iff lib query).mp h)
  have hscore : 0 < (matchRun lib text query score0).score := by
    have : (1 : ℚ) ≤ ((matchRun lib text query score0).qidx : ℚ) := by
      rw [hfull]
      exact_mod_cast hlen
    linarith
  have hten : (0 : ℚ) < 10 / ((text.length : ℚ) + 10) := by
    apply div_pos (by norm_num)
    have : (0 : ℚ) ≤ (text.length : ℚ) := Nat.cast_nonneg _
    linarith
  exact ⟨_, matchScore_of_match lib text query score0 hq hm, mul_pos (mul_pos hscore hfpos) hten⟩

theorem fdiv_nonneg (a b : ℚ) (ha : 0 ≤ a) (hb : 0 ≤ b) : 0 ≤ fdiv a b := by
  unfold fdiv
  split_ifs
  · exact le_top
  · exact_mod_cast div_nonneg ha hb

theorem le_addRecency (score ctime mtime now : ℚ) :
    (score : WithTop ℚ) ≤ addRecency score ctime mtime now := by
  have h2 := fdiv_nonneg 2 (sqrt ((now - ctime) / 86400 + 1)) (by norm_num) (sqrt_nonneg _)
  have h3 := fdiv_nonneg 3 (sqrt ((now - mtime) / 3600 + 1)) (by norm_num) (sqrt_nonneg _)
  simp only [addRecency]
  split_ifs
  · exact le_add_of_le_of_nonneg (le_add_of_nonneg_right h2) h3
  · exact le_add_of_nonneg_right h3
  · exact le_add_of_nonneg_right h2
  · exact le_refl _

/-- One Newton step keeps the order of two iterates that both lie at or above
the square root of their argument. -/
theorem newton_step_lt (x y a b : ℚ) (hxy : x < y) (ha : 0 < a) (hab : a < b)
    (hxa : x ≤ a * a) :
    (1 / 2) * (a + x / a) < (1 / 2) * (b + y / b) := by
  have hb : 0 < b := lt_trans ha hab
  have h1 : x / a - x / b ≤ b - a := by
    have e : x / a - x / b = x * (b - a) / (a * b) := by
      field_simp
      ring
    rw [e, div_le_iff₀ (mul_pos ha hb)]
    have hx : x ≤ a * b := le_trans hxa (mul_le_mul_of_nonneg_left (le_of_lt hab) (le_of_lt ha))
    nlinarith [mul_le_mul_of_nonneg_right hx (sub_nonneg.mpr (le_of_lt hab))]
  have h2 : x / b < y / b := div_lt_div_of_pos_right hxy hb
  linarith

theorem newton_step_sq (x a : ℚ) (ha : 0 < a) :
    x ≤ ((1 / 2) * (a + x / a)) * ((1 / 2) * (a + x / a)) := by
  have e : x = a * (x / a) := by
    field_simp
  nlinarith [sq_nonneg (a - x / a)]

theorem newton_iterate_lt (x y : ℚ) (hx : 1 ≤ x) (hxy : x < y) :
    ∀ n : Nat,
      Nat.iterate (fun z => (1 / 2) * (z + x / z)) n x
          < Nat.iterate (fun z => (1 / 2) * (z + y / z)) n y ∧
        x ≤ Nat.iterate (fun z => (1 / 2) * (z + x / z)) n x
          * Nat.iterate (fun z => (1 / 2) * (z + x / z)) n x ∧
        0 < Nat.iterate (fun z => (1 / 2) * (z + x / z)) n x := by
  have hx0 : 0 < x := lt_of_lt_of_le zero_lt_one hx
  intro n
  induction n with
  | zero =>
    refine ⟨by simpa using hxy, ?_, by simpa using hx0⟩
    simp only [Function.iterate_zero, id_eq]
    nlinarith
  | succ n ih =>
    obtain ⟨h1, h2, h3⟩ := ih
    rw [Function.iterate_succ_apply', Function.iterate_succ_apply']
    refine ⟨newton_step_lt x y _ _ hxy h3 h1 h2, newton_step_sq x _ h3, ?_⟩
    have : 0 < x / Nat.iterate (fun z => (1 / 2) * (z + x / z)) n x := div_pos hx0 h3
    linarith

/-- On arguments at or above `1` the ten-step `sqrt` is strictly increasing. -/
theorem sqrt_lt_sqrt (x y : ℚ) (hx : 1 ≤ x) (hxy : x < y) : sqrt x < sqrt y := by
  have hx0 : 0 < x := lt_of_lt_of_le zero_lt_one hx
  unfold sqrt
  rw [if_neg (not_le.mpr hx0), if_neg (not_le.mpr (lt_trans hx0 hxy))]
  exact (newton_iterate_lt x y hx hxy 10).1

theorem fdiv_eq_coe (a b : ℚ) (hb : 0 < b) : fdiv a b = ((a / b : ℚ) : WithTop ℚ) := by
  unfold fdiv
  rw [if_neg (ne_of_gt hb)]

/-- With a creation time that is unknown or less than a day ahead of the clock
and a modification time in `(0, now]`, both recency terms are finite. -/
theorem addRecency_finite (score ctime mtime now : ℚ)
    (hc : ctime ≤ 0 ∨ ctime < now + 86400) (hm : 0 < mtime) (hmn : mtime ≤ now) :
    addRecency score ctime mtime now =
      (((if 0 < ctime then score + 2 / sqrt ((now - ctime) / 86400 + 1) else score)
        + 3 / sqrt ((now - mtime) / 3600 + 1) : ℚ) : WithTop ℚ) := by
  have hx : 0 < sqrt ((now - mtime) / 3600 + 1) := by
    apply sqrt_pos
    have : 0 ≤ (now - mtime) / 3600 := div_nonneg (by linarith) (by norm_num)
    linarith
  simp only [addRecency, if_pos hm, fdiv_eq_coe _ _ hx]
  by_cases h0 : 0 < ctime
  · have hc2 : ctime < now + 86400 := by
      rcases hc with hc | hc
      · exact absurd h0 (not_lt.mpr hc)
      · exact hc
    have hy : 0 < sqrt ((now - ctime) / 86400 + 1) := by
      apply sqrt_pos
      have : -1 < (now - ctime) / 86400 := by
        rw [lt_div_iff₀ (by norm_num)]
        linarith
      linarith
    simp only [if_pos h0, fdiv_eq_coe _ _ hy]
    push_cast
    rfl
  · simp only [if_neg h0]
    push_cast
    rfl

/-- Strict growth of the recency part in the modification time. -/
theorem addRecency_lt (score ctime m1 m2 now : ℚ)
    (hc : ctime ≤ 0 ∨ ctime < now + 86400) (h1 : 0 < m1) (h12 : m1 < m2) (h2 : m2 ≤ now) :
    addRecency score ctime m1 now < addRecency score ctime m2 now := by
  rw [addRecency_finite score ctime m1 now hc h1 (le_trans (le_of_lt h12) h2),
    addRecency_finite score ctime m2 now hc (lt_trans h1 h12) h2, WithTop.coe_lt_coe]
  have hx2 : 1 ≤ (now - m2) / 3600 + 1 := by
    have : 0 ≤ (now - m2) / 3600 := div_nonneg (by linarith) (by norm_num)
    linarith
  have hlt : (now - m2) / 3600 + 1 < (now - m1) / 3600 + 1 := by
    have : (now - m2) / 3600 < (now - m1) / 3600 :=
      div_lt_div_of_pos_right (by linarith) (by norm_num)
    linarith
  have hs := sqrt_lt_sqrt _ _ hx2 hlt
  have hp := sqrt_pos ((now - m2) / 3600 + 1) (by linarith)
  have hd : 3 / sqrt ((now - m1) / 3600 + 1) < 3 / sqrt ((now - m2) / 3600 + 1) :=
    div_lt_div_of_pos_left (by norm_num) hp hs
  linarith

theorem dashShape_iff (s : GoString) :
    dashShape s = true ↔
      (11 ≤ s.length ∧ s.getD 4 0 = 0x2D ∧ s.getD 7 0 = 0x2D ∧ s.getD 10 0 = 0x2D) := by
  simp [dashShape, and_assoc]

theorem take_dash_drop (s : GoString) (hlen : 11 ≤ s.length) (h10 : s.getD 10 0 = 0x2D) :
    s.take 10 ++ 0x2D :: s.drop 11 = s := by
  have hlt : 10 < s.length := by omega
  rw [List.getD_eq_getElem _ _ hlt] at h10
  rw [← h10, ← List.drop_eq_getElem_cons hlt, List.take_append_drop]

theorem score_eq_zero (lib : GoLib) (text query : GoString) (ctime mtime now : ℚ)
    (h : ¬ List.Sublist (lowerRunes lib query) (lowerRunes lib text)) :
    calculateScore lib text query ctime mtime now = 0 := by
  unfold calculateScore
  rw [matchScore_eq_none lib text query _ h]

theorem score_pos (lib : GoLib) (text query : GoString) (ctime mtime now : ℚ) (hq : query ≠ [])
    (hm : List.Sublist (lowerRunes lib query) (lowerRunes lib text)) :
    0 < calculateScore lib text query ctime mtime now := by
  obtain ⟨sc, hsc, hpos⟩ := matchScore_pos lib text query (dateBonus text)
    (dateBonus_nonneg text) hq hm
  unfold calculateScore
  rw [hsc]
  have h1 : (0 : WithTop ℚ) < (sc : WithTop ℚ) := by exact_mod_cast hpos
  exact lt_of_lt_of_le h1 (le_addRecency sc ctime mtime now)

theorem score_pos_iff (lib : GoLib) (text query : GoString) (ctime mtime now : ℚ)
    (hq : query ≠ []) :
    0 < calculateScore lib text query ctime mtime now ↔
      List.Sublist (lowerRunes lib query) (lowerRunes lib text) := by
  constructor
  · intro h
    by_contra hn
    rw [score_eq_zero lib text query ctime mtime now hn] at h
    exact lt_irrefl _ h
  · exact score_pos lib text query ctime mtime now hq

/-! ## Facts about ranking -/

theorem sortSlice_sorted (l : List TryDir) : List.Sorted scoreGe (sortSlice l) :=
  List.sorted_insertionSort scoreGe l

theorem sortSlice_perm (l : List TryDir) : List.Perm (sortSlice l) l :=
  List.perm_insertionSort scoreGe l

theorem scoreAll_filter (lib : GoLib) (base : List TryDir) (query : GoString) (now : ℚ) :
    (scoreAll lib base query now).filter (fun t => 0 < t.Score) =
      (base.filter fun t => 0 < calculateScore lib t.Basename query t.Ctime t.Mtime now).map
        fun t => { t with Score := calculateScore lib t.Basename query t.Ctime t.Mtime now } := by
  unfold scoreAll
  rw [List.filter_map]
  rfl

theorem rankTries_length (lib : GoLib) (base : List TryDir) (query : GoString) (now : ℚ) :
    (rankTries lib base query now).length = matchCount lib base query := by
  unfold rankTries matchCount
  split_ifs with hq
  · rw [(sortSlice_perm _).length_eq]
    simp [scoreAll]
  · rw [(sortSlice_perm _).length_eq, scoreAll_filter, List.length_map]
    congr 1
    apply List.filter_congr
    intro t _
    simp only [score_pos_iff lib t.Basename query t.Ctime t.Mtime now hq]

/-! ## Facts about the selector loop -/

theorem loadTries_snd_tries (s : Selector) (dirs : List TryDir) :
    (loadTries s dirs).2.tries = (loadTries s dirs).1 := by
  unfold loadTries
  split_ifs <;> rfl

theorem loadTries_snd_fields (s : Selector) (dirs : List TryDir) :
    (loadTries s dirs).2.cursorPos = s.cursorPos ∧
      (loadTries s dirs).2.inputBuffer = s.inputBuffer ∧
      (loadTries s dirs).2.basePath = s.basePath ∧
      (loadTries s dirs).2.scrollOffset = s.scrollOffset ∧
      (loadTries s dirs).2.termH = s.termH ∧
      (loadTries s dirs).2.selected = s.selected := by
  unfold loadTries
  split_ifs <;> exact ⟨rfl, rfl, rfl, rfl, rfl, rfl⟩

theorem matchCount_nil (lib : GoLib) (query : GoString) : matchCount lib [] query = 0 := by
  unfold matchCount
  split_ifs <;> rfl

theorem getTries_length (lib : GoLib) (s : Selector) (w : World) :
    (getTries lib s w).1.length = matchCount lib (getTries lib s w).2.tries s.inputBuffer := by
  simp only [getTries, rankTries_length, loadTries_snd_tries]

/-- Loading the cache keeps the cursor on a row: an empty cache allows row 0
only. -/
theorem cursorOk_loadTries (lib : GoLib) (s : Selector) (dirs : List TryDir)
    (h : cursorOk lib s) : cursorOk lib (loadTries s dirs).2 := by
  unfold loadTries
  split_ifs with ht
  · exact h
  · have hnil : s.tries = [] := by
      by_contra hne
      exact ht hne
    obtain ⟨h0, h1⟩ := h
    rw [hnil, matchCount_nil] at h1
    refine ⟨h0, ?_⟩
    have : (0 : Int) ≤ (matchCount lib dirs s.inputBuffer : Int) := Int.ofNat_nonneg _
    exact le_trans h1 this

theorem cursorOk_getTries (lib : GoLib) (s : Selector) (w : World) (h : cursorOk lib s) :
    cursorOk lib (getTries lib s w).2 :=
  cursorOk_loadTries lib s w.dirs h

theorem cursor_le_getTries_length (lib : GoLib) (s : Selector) (w : World)
    (h : cursorOk lib s) : s.cursorPos ≤ ((getTries lib s w).1.length : Int) := by
  have h2 := (cursorOk_getTries lib s w h).2
  rw [getTries_length]
  have hf := loadTries_snd_fields s w.dirs
  simp only [getTries] at h2 ⊢
  rw [hf.1, hf.2.1] at h2
  exact h2

theorem updateTermSize_fields (s : Selector) (ws : Option Winsize) :
    (updateTermSize s ws).cursorPos = s.cursorPos ∧
      (updateTermSize s ws).inputBuffer = s.inputBuffer ∧
      (updateTermSize s ws).tries = s.tries ∧
      (updateTermSize s ws).basePath = s.basePath :=
  ⟨rfl, rfl, rfl, rfl⟩

theorem render_fields (lib : GoLib) (s : Selector) (ws : Option Winsize) (w : World) :
    (render lib s ws w).cursorPos = s.cursorPos ∧
      (render lib s ws w).inputBuffer = s.inputBuffer ∧
      (render lib s ws w).basePath = s.basePath ∧
      (render lib s ws w).tries = (loadTries s w.dirs).1 := by
  have hf := loadTries_snd_fields (updateTermSize s ws) w.dirs
  have ht := loadTries_snd_tries (updateTermSize s ws) w.dirs
  have hl : (loadTries (updateTermSize s ws) w.dirs).1 = (loadTries s w.dirs).1 := by
    unfold loadTries
    simp only [(updateTermSize_fields s ws).2.2.1]
    split_ifs <;> rfl
  simp only [render, getTries]
  split_ifs <;> exact ⟨hf.1, hf.2.1, hf.2.2.1, ht.trans hl⟩

theorem cursorOk_render (lib : GoLib) (s : Selector) (ws : Option Winsize) (w : World)
    (h : cursorOk lib s) : cursorOk lib (render lib s ws w) := by
  have hr := render_fields lib s ws w
  have hl := cursorOk_loadTries lib s w.dirs h
  have hf := loadTries_snd_fields s w.dirs
  unfold cursorOk at hl ⊢
  rw [hr.1, hr.2.1, hr.2.2.2]
  rw [hf.1, hf.2.1, loadTries_snd_tries] at hl
  exact hl

/-- The viewport bounds `render` restores. -/
theorem render_viewport (lib : GoLib) (s : Selector) (ws : Option Winsize) (w : World) :
    (render lib s ws w).scrollOffset ≤ (render lib s ws w).cursorPos ∧
      (render lib s ws w).cursorPos
        ≤ (render lib s ws w).scrollOffset + maxVisible (render lib s ws w) - 1 := by
  have h3 : ∀ z : Selector, 3 ≤ maxVisible z := fun z => le_max_left _ _
  simp only [render]
  split_ifs with h1 h2
  · have := h3 (getTries lib (updateTermSize s ws) w).2
    refine ⟨le_refl _, ?_⟩
    simp only [maxVisible] at this ⊢
    omega
  · have := h3 (getTries lib (updateTermSize s ws) w).2
    simp only [maxVisible] at this ⊢
    constructor <;> omega
  · have := h3 (getTries lib (updateTermSize s ws) w).2
    simp only [maxVisible] at this h2 ⊢
    constructor <;> omega

theorem cursorOk_of_zero (lib : GoLib) (s : Selector) (h : s.cursorPos = 0) : cursorOk lib s := by
  unfold cursorOk
  rw [h]
  exact ⟨le_refl _, Int.ofNat_nonneg _⟩

theorem cursorOk_of_fields (lib : GoLib) (s z : Selector) (hc : z.cursorPos = s.cursorPos)
    (hi : z.inputBuffer = s.inputBuffer) (ht : z.tries = s.tries) (h : cursorOk lib s) :
    cursorOk lib z := by
  unfold cursorOk at h ⊢
  rw [hc, hi, ht]
  exact h

theorem handleCreateNew_fields (lib : GoLib) (s : Selector) (date line : GoString) :
    (handleCreateNew lib s date line).cursorPos = s.cursorPos ∧
      (handleCreateNew lib s date line).inputBuffer = s.inputBuffer ∧
      (handleCreateNew lib s date line).tries = s.tries := by
  unfold handleCreateNew
  split_ifs <;> exact ⟨rfl, rfl, rfl⟩

theorem cursorOk_keyUp (lib : GoLib) (s z : Selector) (h : cursorOk lib s)
    (hz : keyUp s = .next z) : cursorOk lib z := by
  unfold keyUp at hz
  split_ifs at hz with c
  · cases hz
    exact ⟨by simp only; omega, by have := h.2; simp only at this ⊢; omega⟩
  · cases hz
    exact h

theorem cursorOk_keyDown (lib : GoLib) (s z : Selector) (n : Nat) (h : cursorOk lib s)
    (hn : n = matchCount lib s.tries s.inputBuffer)
    (hz : keyDown s ((n : Int) + 1) = .next z) : cursorOk lib z := by
  unfold keyDown at hz
  split_ifs at hz with c
  · cases hz
    refine ⟨by have := h.1; simp only; omega, ?_⟩
    simp only
    rw [← hn]
    omega
  · cases hz
    exact h

theorem cursorOk_returnSelected (lib : GoLib) (s z : Selector) (h : cursorOk lib s)
    (hz : returnSelected s = .next z) : cursorOk lib z := by
  unfold returnSelected at hz
  split at hz
  · cases hz
  · cases hz
    exact h

theorem cursorOk_keyEnter (lib : GoLib) (s z : Selector) (w : World) (date line : GoString)
    (h : cursorOk lib s) (hz : keyEnter lib s w date line = .next z) : cursorOk lib z := by
  have h2 := cursorOk_getTries lib s w h
  unfold keyEnter at hz
  simp only at hz
  split_ifs at hz with c1 c2
  · split at hz
    · simp only [returnSelected, handleSelection] at hz
      cases hz
    · cases hz
  · have hf := handleCreateNew_fields lib (getTries lib s w).2 date line
    exact cursorOk_returnSelected lib _ z
      (cursorOk_of_fields lib _ _ hf.1 hf.2.1 hf.2.2 h2) hz

theorem cursorOk_keyBackspace (lib : GoLib) (s z : Selector) (hz : keyBackspace s = .next z) :
    cursorOk lib z := by
  unfold keyBackspace at hz
  split_ifs at hz <;> cases hz <;> exact cursorOk_of_zero lib _ rfl

theorem cursorOk_keyDefault (lib : GoLib) (s z : Selector) (key : GoString) (h : cursorOk lib s)
    (hz : keyDefault lib s key = .next z) : cursorOk lib z := by
  unfold keyDefault at hz
  split_ifs at hz
  · cases hz
    exact cursorOk_of_zero lib _ rfl
  · cases hz
    exact h
  · cases hz
    exact h

/-- A turn of the switch that goes on leaves the cursor on a row. -/
theorem cursorOk_handleKey (lib : GoLib) (s z : Selector) (t : Tick) (h : cursorOk lib s)
    (hz : handleKey lib s t = .next z) : cursorOk lib z := by
  have h1 := cursorOk_getTries lib s t.wCount h
  have hlen := getTries_length lib s t.wCount
  have hib : (getTries lib s t.wCount).2.inputBuffer = s.inputBuffer :=
    (loadTries_snd_fields s t.wCount.dirs).2.1
  unfold handleKey at hz
  simp only at hz
  split_ifs at hz
  · exact cursorOk_keyUp lib _ z h1 hz
  · exact cursorOk_keyDown lib _ z _ h1 (by rw [hib]; exact hlen) hz
  · exact cursorOk_keyEnter lib _ z _ _ _ h1 hz
  · exact cursorOk_keyBackspace lib _ z hz
  · exact cursorOk_keyDefault lib _ z _ h1 hz

theorem cursorOk_iterate (lib : GoLib) (s z : Selector) (t : Tick) (h : cursorOk lib s)
    (hz : iterate lib s t = .next z) : cursorOk lib z :=
  cursorOk_handleKey lib _ z t (cursorOk_render lib s t.winsize t.wRender h) hz

theorem cursorOk_runLoop (lib : GoLib) :
    ∀ (ticks : List Tick) (s z : Selector), cursorOk lib s → runLoop lib s ticks = .next z →
      cursorOk lib z := by
  intro ticks
  induction ticks with
  | nil =>
    intro s z h hz
    simp only [runLoop] at hz
    cases hz
    exact h
  | cons t ts ih =>
    intro s z h hz
    simp only [runLoop] at hz
    split at hz
    · rename_i s1 hs1
      exact ih s1 z (cursorOk_iterate lib s s1 t h hs1) hz
    · cases hz
    · cases hz

theorem handleKey_up (lib : GoLib) (s : Selector) (t : Tick)
    (hk : t.key = [0x1B, 0x5B, 0x41] ∨ t.key = [0x10]) :
    handleKey lib s t = keyUp (getTries lib s t.wCount).2 := by
  simp only [handleKey, if_pos hk]

theorem handleKey_down (lib : GoLib) (s : Selector) (t : Tick)
    (hk : t.key = [0x1B, 0x5B, 0x42] ∨ t.key = [0x0E]) :
    handleKey lib s t =
      keyDown (getTries lib s t.wCount).2 (((getTries lib s t.wCount).1.length : Int) + 1) := by
  rcases hk with hk | hk <;> simp [handleKey, hk]

theorem handleKey_enter (lib : GoLib) (s : Selector) (t : Tick)
    (hk : t.key = [0x0D] ∨ t.key = [0x0A]) :
    handleKey lib s t = keyEnter lib (getTries lib s t.wCount).2 t.wEnter t.date t.line := by
  rcases hk with hk | hk <;> simp [handleKey, hk]

theorem handleKey_backspace (lib : GoLib) (s : Selector) (t : Tick)
    (hk : t.key = [0x7F] ∨ t.key = [0x08]) :
    handleKey lib s t = keyBackspace (getTries lib s t.wCount).2 := by
  rcases hk with hk | hk <;> simp [handleKey, hk]

theorem getTries_snd_fields (lib : GoLib) (s : Selector) (w : World) :
    (getTries lib s w).2.cursorPos = s.cursorPos ∧
      (getTries lib s w).2.inputBuffer = s.inputBuffer ∧
      (getTries lib s w).2.basePath = s.basePath :=
  ⟨(loadTries_snd_fields s w.dirs).1, (loadTries_snd_fields s w.dirs).2.1,
    (loadTries_snd_fields s w.dirs).2.2.1⟩

theorem replaceByte_no_old (s : GoString) (old new : Nat) (h : new ≠ old) :
    ∀ b ∈ replaceByte s old new, b ≠ old := by
  intro b hb
  unfold replaceByte at hb
  rw [List.mem_map] at hb
  obtain ⟨a, _, rfl⟩ := hb
  split_ifs with c
  · exact h
  · exact c

/-! ## Facts about the date bonus -/

theorem matchHit_shift (tl : List Nat) (pos : Nat) (st : MatchState) (c : ℚ) :
    matchHit tl pos { st with score := st.score + c } =
      { matchHit tl pos st with score := (matchHit tl pos st).score + c } := by
  simp only [matchHit, MatchState.mk.injEq, and_true]
  split_ifs <;> ring

/-- The walk is the same from a start score shifted by `c`, with the final
score shifted by `c`. -/
theorem matchLoop_shift (tl qchars : List Nat) (c : ℚ) :
    ∀ (rest : List Nat) (pos : Nat) (st : MatchState),
      matchLoop tl qchars pos rest { st with score := st.score + c } =
        { matchLoop tl qchars pos rest st with
          score := (matchLoop tl qchars pos rest st).score + c } := by
  intro rest
  induction rest with
  | nil => intro pos st; rfl
  | cons r rest ih =>
    intro pos st
    rw [matchLoop, matchLoop]
    split_ifs with h1 h2
    · rfl
    · exact ih (pos + 1) st
    · rw [matchHit_shift]
      exact ih (pos + 1) (matchHit tl pos st)

theorem matchRun_shift (lib : GoLib) (text query : GoString) (c : ℚ) :
    matchRun lib text query c =
      { matchRun lib text query 0 with score := (matchRun lib text query 0).score + c } := by
  have h := matchLoop_shift (lowerRunes lib text) (lowerRunes lib query) c (lowerRunes lib text) 0
    { score := 0, lastPos := -1, qidx := 0 }
  simp only [zero_add] at h
  exact h

theorem addRecency_add (a b ctime mtime now : ℚ) :
    addRecency (a + b) ctime mtime now = (a : WithTop ℚ) + addRecency b ctime mtime now := by
  simp only [addRecency]
  split_ifs <;> push_cast <;> simp only [add_assoc]

/-- After a full match of a non-empty query, a start score `c` reaches the
result multiplied by both factors. -/
theorem matchScore_shift (lib : GoLib) (text query : GoString) (c : ℚ) (hq : query ≠ [])
    (hm : List.Sublist (lowerRunes lib query) (lowerRunes lib text)) :
    ∃ sc : ℚ, matchScore lib text query 0 = some sc ∧
      matchScore lib text query c =
        some (c * scaleFactor (lowerRunes lib query) (matchRun lib text query 0)
          * (10 / ((text.length : ℚ) + 10)) + sc) := by
  refine ⟨_, matchScore_of_match lib text query 0 hq hm, ?_⟩
  rw [matchScore_of_match lib text query c hq hm, matchRun_shift lib text query c]
  simp only [scaleFactor]
  congr 1
  ring

theorem lengthFactor_lt_one (text : GoString) (h : 0 < text.length) :
    (10 : ℚ) / ((text.length : ℚ) + 10) < 1 := by
  have hpos : (0 : ℚ) < (text.length : ℚ) := by exact_mod_cast h
  rw [div_lt_one (by linarith)]
  linarith

theorem encodeRune_no_slash (r : Nat) (h : r ≠ 0x2F) : ∀ b ∈ encodeRune r, b ≠ 0x2F := by
  intro b hb
  unfold encodeRune at hb
  split_ifs at hb <;> simp only [List.mem_cons, List.mem_singleton, List.not_mem_nil, or_false] at hb
    <;> omega

theorem acceptsRune_ne_slash (lib : GoLib) (r : Nat) (h : acceptsRune lib r = true) :
    r ≠ 0x2F := by
  intro hr
  subst hr
  have hc : (runes (goStr "-_. ")).contains 0x2F = false := by decide
  have hl : unicodeIsLetter lib 0x2F = false := by
    unfold unicodeIsLetter
    rw [if_pos (by decide)]
    decide
  have hd : unicodeIsDigit lib 0x2F = false := by
    unfold unicodeIsDigit
    rw [if_pos (by decide)]
    decide
  unfold acceptsRune at h
  rw [hc, hl, hd] at h
  exact absurd h (by decide)

/-- The `default` case of the switch never brings a `/` into the query. -/
theorem keyDefault_no_slash (lib : GoLib) (s z : Selector) (key : GoString)
    (hz : keyDefault lib s key = .next z) (hs : ∀ b ∈ s.inputBuffer, b ≠ 0x2F) :
    ∀ b ∈ z.inputBuffer, b ≠ 0x2F := by
  unfold keyDefault at hz
  split_ifs at hz with h1 h2
  · cases hz
    intro b hb
    simp only [List.mem_append] at hb
    rcases hb with hb | hb
    · exact hs b hb
    · exact encodeRune_no_slash _ (acceptsRune_ne_slash lib _ h2) b hb
  · cases hz
    exact hs
  · cases hz
    exact hs

theorem keyBackspace_no_slash (s z : Selector) (hz : keyBackspace s = .next z)
    (hs : ∀ b ∈ s.inputBuffer, b ≠ 0x2F) : ∀ b ∈ z.inputBuffer, b ≠ 0x2F := by
  unfold keyBackspace at hz
  split_ifs at hz
  · cases hz
    intro b hb
    exact hs b (List.mem_of_mem_take hb)
  · cases hz
    exact hs

theorem keyEnter_inputBuffer (lib : GoLib) (s z : Selector) (w : World) (date line : GoString)
    (hz : keyEnter lib s w date line = .next z) : z.inputBuffer = s.inputBuffer := by
  have hg := getTries_snd_fields lib s w
  unfold keyEnter at hz
  simp only at hz
  split_ifs at hz with c1 c2
  · split at hz
    · simp only [returnSelected, handleSelection] at hz
      cases hz
    · cases hz
  · have hf := handleCreateNew_fields lib (getTries lib s w).2 date line
    unfold returnSelected at hz
    split at hz
    · cases hz
    · cases hz
      rw [hf.2.1, hg.2.1]

/-- A turn of the loop that goes on never brings a `/` into the query. -/
theorem iterate_no_slash (lib : GoLib) (s z : Selector) (t : Tick)
    (hz : iterate lib s t = .next z) (hs : ∀ b ∈ s.inputBuffer, b ≠ 0x2F) :
    ∀ b ∈ z.inputBuffer, b ≠ 0x2F := by
  have hr := (render_fields lib s t.winsize t.wRender).2.1
  have hg := (getTries_snd_fields lib (render lib s t.winsize t.wRender) t.wCount).2.1
  have hs1 : ∀ b ∈ (getTries lib (render lib s t.winsize t.wRender) t.wCount).2.inputBuffer,
      b ≠ 0x2F := by
    rw [hg, hr]
    exact hs
  unfold iterate handleKey at hz
  simp only at hz
  split_ifs at hz
  · unfold keyUp at hz
    split_ifs at hz <;> cases hz <;> exact hs1
  · unfold keyDown at hz
    split_ifs at hz <;> cases hz <;> exact hs1
  · rw [keyEnter_inputBuffer lib _ z _ _ _ hz]
    exact hs1
  · exact keyBackspace_no_slash _ z hz hs1
  · exact keyDefault_no_slash lib _ z _ hz hs1

/-- Keys never bring a `/` into the query: after any turns of the loop the
query has one only if the query the loop started with had one. -/
theorem runLoop_no_slash (lib : GoLib) :
    ∀ (ticks : List Tick) (s z : Selector), runLoop lib s ticks = .next z →
      (∀ b ∈ s.inputBuffer, b ≠ 0x2F) → ∀ b ∈ z.inputBuffer, b ≠ 0x2F := by
  intro ticks
  induction ticks with
  | nil =>
    intro s z hz hs
    simp only [runLoop] at hz
    cases hz
    exact hs
  | cons t ts ih =>
    intro s z hz hs
    simp only [runLoop] at hz
    split at hz
    · rename_i s1 hs1
      exact ih s1 z hz (iterate_no_slash lib s s1 t hs1 hs)
    · cases hz
    · cases hz

/-! ## The claims -/

/-- C1 (as amended): when the lower-cased query is not a subsequence of the
lower-cased name, `calculateScore` returns exactly `0`, whatever the
timestamps and the clock. -/
theorem calculateScore_zero_of_no_match (lib : GoLib) (text query : GoString)
    (ctime mtime now : ℚ)
    (h : ¬ List.Sublist (lowerRunes lib query) (lowerRunes lib text)) :
    calculateScore lib text query ctime mtime now = 0 :=
  score_eq_zero lib text query ctime mtime now h

/-- C1, witness: the query "ab" against the name "xyz". -/
theorem calculateScore_zero_of_no_match_witness :
    ¬ List.Sublist (lowerRunes asciiLib (goStr "ab")) (lowerRunes asciiLib (goStr "xyz")) ∧
      calculateScore asciiLib (goStr "xyz") (goStr "ab") 5 7 100 = 0 :=
  ⟨by decide, calculateScore_zero_of_no_match asciiLib (goStr "xyz") (goStr "ab") 5 7 100
    (by decide)⟩

/-- C1, counterexample to the claim as written: the query "A" is not a
subsequence of the lower-cased name "a", yet the score is `20/11`, because the
query is lower-cased too before the walk.  The inputs are ASCII, so no case
table is consulted. -/
theorem calculateScore_upper_query_counterexample :
    ¬ List.Sublist (runes (goStr "A")) (lowerRunes asciiLib (goStr "a")) ∧
      calculateScore asciiLib (goStr "a") (goStr "A") 0 0 0 = ((20 / 11 : ℚ) : WithTop ℚ) ∧
      calculateScore asciiLib (goStr "a") (goStr "A") 0 0 0 ≠ 0 := by
  decide!

/-- C2: for a non-empty query whose lower-cased runes appear in order in the
lower-cased name, `calculateScore` is strictly positive for all timestamps and
clock values. -/
theorem calculateScore_pos_of_match (lib : GoLib) (text query : GoString)
    (ctime mtime now : ℚ) (hq : query ≠ [])
    (hm : List.Sublist (lowerRunes lib query) (lowerRunes lib text)) :
    0 < calculateScore lib text query ctime mtime now :=
  score_pos lib text query ctime mtime now hq hm

/-- C2, witness: "ab" in "alpha-beta", matched last at index 6. -/
theorem calculateScore_pos_of_match_witness :
    goStr "ab" ≠ [] ∧
      List.Sublist (lowerRunes asciiLib (goStr "ab")) (lowerRunes asciiLib (goStr "alpha-beta")) ∧
      (matchRun asciiLib (goStr "alpha-beta") (goStr "ab") 0).lastPos = 6 ∧
      0 < calculateScore asciiLib (goStr "alpha-beta") (goStr "ab") 5 7 100 :=
  ⟨by decide, by decide, by decide!,
    calculateScore_pos_of_match asciiLib (goStr "alpha-beta") (goStr "ab") 5 7 100
      (by decide) (by decide)⟩

/-- C8 (as amended): for a query that is empty or matches the name, a creation
time that is unknown (not positive) or less than a day ahead of the clock, and
two modification times `0 < m1 < m2 ≤ now`, the score with `m2` is strictly
greater than the score with `m1` (in exact arithmetic). -/
theorem calculateScore_lt_of_mtime_lt (lib : GoLib) (text query : GoString)
    (ctime m1 m2 now : ℚ)
    (hm : query = [] ∨ List.Sublist (lowerRunes lib query) (lowerRunes lib text))
    (hc : ctime ≤ 0 ∨ ctime < now + 86400) (h1 : 0 < m1) (h12 : m1 < m2) (h2 : m2 ≤ now) :
    calculateScore lib text query ctime m1 now < calculateScore lib text query ctime m2 now := by
  have hsome : ∃ sc, matchScore lib text query (dateBonus text) = some sc := by
    by_cases hq : query = []
    · exact ⟨dateBonus text, by simp [matchScore, hq]⟩
    · rcases hm with hm | hm
      · exact absurd hm hq
      · exact ⟨_, matchScore_of_match lib text query _ hq hm⟩
  obtain ⟨sc, hsc⟩ := hsome
  unfold calculateScore
  rw [hsc]
  exact addRecency_lt sc ctime m1 m2 now hc h1 h12 h2

/-- C8, witness: "ab" in "alpha-beta" with modification times 1 and 2 at
clock 3. -/
theorem calculateScore_lt_of_mtime_lt_witness :
    (goStr "ab" = [] ∨
        List.Sublist (lowerRunes asciiLib (goStr "ab")) (lowerRunes asciiLib (goStr "alpha-beta"))) ∧
      ((1 : ℚ) ≤ 0 ∨ (1 : ℚ) < 3 + 86400) ∧ (0 : ℚ) < 1 ∧ (1 : ℚ) < 2 ∧ (2 : ℚ) ≤ 3 ∧
      calculateScore asciiLib (goStr "alpha-beta") (goStr "ab") 1 1 3
        < calculateScore asciiLib (goStr "alpha-beta") (goStr "ab") 1 2 3 :=
  ⟨Or.inr (by decide), Or.inr (by norm_num), by norm_num, by norm_num, by norm_num,
    calculateScore_lt_of_mtime_lt asciiLib (goStr "alpha-beta") (goStr "ab") 1 1 2 3
      (Or.inr (by decide)) (Or.inr (by norm_num)) (by norm_num) (by norm_num) (by norm_num)⟩

/-- C8, counterexample to the claim as written: with modification times
`1 < 2 ≤ 3` the score does not grow (a) for the query "ab", which does not
match the name "xyz" (both scores are `0`), and (b) for a creation time more
than a day ahead of the clock (both scores are `+Inf`). -/
theorem calculateScore_mtime_counterexample :
    ((0 : ℚ) < 1 ∧ (1 : ℚ) < 2 ∧ (2 : ℚ) ≤ 3) ∧
      calculateScore asciiLib (goStr "xyz") (goStr "ab") 0 1 3 = 0 ∧
      calculateScore asciiLib (goStr "xyz") (goStr "ab") 0 2 3 = 0 ∧
      ¬ (calculateScore asciiLib (goStr "xyz") (goStr "ab") 0 1 3
          < calculateScore asciiLib (goStr "xyz") (goStr "ab") 0 2 3) ∧
      calculateScore asciiLib (goStr "a") [] 200000 1 3 = ⊤ ∧
      calculateScore asciiLib (goStr "a") [] 200000 2 3 = ⊤ ∧
      ¬ (calculateScore asciiLib (goStr "a") [] 200000 1 3
          < calculateScore asciiLib (goStr "a") [] 200000 2 3) := by
  decide!

/-- C9 (as amended): `splitDateName` returns the pair (first 10 bytes, bytes
after the 11th) exactly when the name has at least 11 bytes and its 5th, 8th
and 11th bytes are `-`, whether or not the first four bytes parse as an
integer; then `datePart ++ "-" ++ namePart` is the name.  Every name earning
the date bonus of `calculateScore` is split, any name failing the guard is
not. -/
theorem splitDateName_spec (s : GoString) :
    (splitDateName s = some (s.take 10, s.drop 11) ↔
        (11 ≤ s.length ∧ s.getD 4 0 = 0x2D ∧ s.getD 7 0 = 0x2D ∧ s.getD 10 0 = 0x2D)) ∧
      (splitDateName s = none ↔
        ¬ (11 ≤ s.length ∧ s.getD 4 0 = 0x2D ∧ s.getD 7 0 = 0x2D ∧ s.getD 10 0 = 0x2D)) ∧
      (∀ d n, splitDateName s = some (d, n) →
        d = s.take 10 ∧ n = s.drop 11 ∧ d ++ 0x2D :: n = s) ∧
      (dateBonus s = 2 → splitDateName s = some (s.take 10, s.drop 11)) ∧
      splitDateName (goStr "2024-03-02-demo") = some (goStr "2024-03-02", goStr "demo") ∧
      splitDateName (goStr "demo") = none := by
  have hiff := dashShape_iff s
  refine ⟨?_, ?_, ?_, ?_, by decide, by decide⟩
  · rw [← hiff]
    unfold splitDateName
    split_ifs with h <;> simp [h]
  · rw [← hiff]
    unfold splitDateName
    split_ifs with h <;> simp [h]
  · intro d n h
    unfold splitDateName at h
    split_ifs at h with hd
    · obtain ⟨hlen, _, _, h10⟩ := hiff.mp hd
      simp only [Option.some.injEq, Prod.mk.injEq] at h
      obtain ⟨rfl, rfl⟩ := h
      exact ⟨rfl, rfl, take_dash_drop s hlen h10⟩
  · intro h
    unfold dateBonus at h
    unfold splitDateName
    split_ifs at h with hb
    · simp only [Bool.and_eq_true] at hb
      rw [if_pos hb.1]
    · norm_num at h

/-- C9, counterexample to the claim as written: "abcd-ef-gh-x" is split although
its first four bytes do not parse as an integer and it earns no date bonus. -/
theorem splitDateName_counterexample :
    splitDateName (goStr "abcd-ef-gh-x") = some (goStr "abcd-ef-gh", goStr "x") ∧
      atoiOk ((goStr "abcd-ef-gh-x").take 4) = false ∧
      dateBonus (goStr "abcd-ef-gh-x") = 0 := by
  decide!

/-- C10 (as amended): for every name and every non-empty query that matches
it, the factor `len(qchars) / (lastPos + 1)` that `calculateScore` applies lies
in `(0, 1]`: it never amplifies the accumulated score. -/
theorem scaleFactor_le_one (lib : GoLib) (text query : GoString) (hq : query ≠ [])
    (hm : List.Sublist (lowerRunes lib query) (lowerRunes lib text)) :
    matchScore lib text query (dateBonus text) =
        some ((matchRun lib text query (dateBonus text)).score *
          scaleFactor (lowerRunes lib query) (matchRun lib text query (dateBonus text)) *
          (10 / ((text.length : ℚ) + 10))) ∧
      0 < scaleFactor (lowerRunes lib query) (matchRun lib text query (dateBonus text)) ∧
      scaleFactor (lowerRunes lib query) (matchRun lib text query (dateBonus text)) ≤ 1 :=
  ⟨matchScore_of_match lib text query _ hq hm,
    (scaleFactor_bounds lib text query _ hq hm).2.1,
    (scaleFactor_bounds lib text query _ hq hm).2.2⟩

/-- C10, witness: the query "a" against the name "ab" has factor exactly 1. -/
theorem scaleFactor_le_one_witness :
    goStr "a" ≠ [] ∧
      List.Sublist (lowerRunes asciiLib (goStr "a")) (lowerRunes asciiLib (goStr "ab")) ∧
      scaleFactor (lowerRunes asciiLib (goStr "a"))
        (matchRun asciiLib (goStr "ab") (goStr "a") (dateBonus (goStr "ab"))) ≤ 1 :=
  ⟨by decide, by decide,
    (scaleFactor_le_one asciiLib (goStr "ab") (goStr "a") (by decide) (by decide)).2.2⟩

/-- C10, refutation of the claim as written: no name and matching non-empty
query give a factor above `1`. -/
theorem scaleFactor_exceeds_one_counterexample :
    ¬ ∃ (lib : GoLib) (text query : GoString), query ≠ [] ∧
      List.Sublist (lowerRunes lib query) (lowerRunes lib text) ∧
      1 < scaleFactor (lowerRunes lib query) (matchRun lib text query (dateBonus text)) := by
  rintro ⟨lib, text, query, hq, hm, hgt⟩
  exact absurd hgt (not_lt.mpr (scaleFactor_bounds lib text query _ hq hm).2.2)

/-- C3: `getTries` returns a list ordered by score descending that is a
permutation of all loaded candidates (empty query) or of exactly the loaded
candidates whose score is positive (non-empty query), each carrying the score
computed for the current query. -/
theorem getTries_sorted_perm (lib : GoLib) (s : Selector) (w : World) :
    List.Sorted (fun a b => b.Score ≤ a.Score) (getTries lib s w).1 ∧
      (s.inputBuffer = [] →
        List.Perm (getTries lib s w).1
          ((loadTries s w.dirs).1.map fun t =>
            { t with Score := calculateScore lib t.Basename s.inputBuffer t.Ctime t.Mtime w.now })) ∧
      (s.inputBuffer ≠ [] →
        List.Perm (getTries lib s w).1
          (((loadTries s w.dirs).1.filter fun t =>
              0 < calculateScore lib t.Basename s.inputBuffer t.Ctime t.Mtime w.now).map fun t =>
            { t with Score := calculateScore lib t.Basename s.inputBuffer t.Ctime t.Mtime w.now })) ∧
      (∀ t ∈ (getTries lib s w).1,
        t.Score = calculateScore lib t.Basename s.inputBuffer t.Ctime t.Mtime w.now) := by
  have hperm : s.inputBuffer ≠ [] →
      List.Perm (getTries lib s w).1
        (((loadTries s w.dirs).1.filter fun t =>
            0 < calculateScore lib t.Basename s.inputBuffer t.Ctime t.Mtime w.now).map fun t =>
          { t with Score := calculateScore lib t.Basename s.inputBuffer t.Ctime t.Mtime w.now }) := by
    intro hq
    simp only [getTries, rankTries, if_neg hq]
    rw [← scoreAll_filter]
    exact sortSlice_perm _
  have hperm0 : s.inputBuffer = [] →
      List.Perm (getTries lib s w).1
        ((loadTries s w.dirs).1.map fun t =>
          { t with Score := calculateScore lib t.Basename s.inputBuffer t.Ctime t.Mtime w.now }) := by
    intro hq
    simp only [getTries, rankTries, if_pos hq]
    exact sortSlice_perm _
  refine ⟨?_, hperm0, hperm, ?_⟩
  · simp only [getTries, rankTries]
    split_ifs
    · exact sortSlice_sorted _
    · exact sortSlice_sorted _
  · intro t ht
    by_cases hq : s.inputBuffer = []
    · have hmem := (hperm0 hq).mem_iff.mp ht
      rw [List.mem_map] at hmem
      obtain ⟨u, _, rfl⟩ := hmem
      rfl
    · have hmem := (hperm hq).mem_iff.mp ht
      rw [List.mem_map] at hmem
      obtain ⟨u, _, rfl⟩ := hmem
      rfl

/-- C4: after the scroll adjustment of `render`, for any cursor, previous scroll
offset and terminal size, `scrollOffset ≤ cursor ≤ scrollOffset + visibleRows - 1`
with `visibleRows = max(3, termH - 8)`; so it holds for the frame drawn after
any sequence of keys. -/
theorem render_viewport_invariant (lib : GoLib) (s : Selector) (ws : Option Winsize) (w : World) :
    ((render lib s ws w).scrollOffset ≤ (render lib s ws w).cursorPos ∧
        (render lib s ws w).cursorPos
          ≤ (render lib s ws w).scrollOffset + max 3 ((render lib s ws w).termH - 8) - 1) ∧
      (render lib s ws w).termH = (updateTermSize s ws).termH ∧
      (render lib s ws w).cursorPos = s.cursorPos ∧
      (∀ (ticks : List Tick) (z : Selector), runLoop lib s ticks = .next z →
        (render lib z ws w).scrollOffset ≤ (render lib z ws w).cursorPos ∧
          (render lib z ws w).cursorPos
            ≤ (render lib z ws w).scrollOffset + max 3 ((render lib z ws w).termH - 8) - 1) := by
  refine ⟨render_viewport lib s ws w, ?_, (render_fields lib s ws w).1, ?_⟩
  · have hf := loadTries_snd_fields (updateTermSize s ws) w.dirs
    simp only [render, getTries]
    split_ifs <;> exact hf.2.2.2.2.1
  · intro ticks z _
    exact render_viewport lib z ws w

/-- C5: from a newly constructed selector, after every finite sequence of turns
of the loop the cursor satisfies `0 ≤ cursor ≤ len(candidates)` for the list
`getTries` returns at that moment; Up/Ctrl-P then sets the cursor to
`max(0, cursor-1)` and Down/Ctrl-N to `min(virtualListLength-1, cursor+1)`,
and neither changes the query. -/
theorem cursor_invariant (lib : GoLib) (search basePath : GoString) (ticks : List Tick)
    (z : Selector) (h : runLoop lib (newSelector lib search basePath) ticks = .next z) :
    (0 ≤ z.cursorPos ∧ ∀ w : World, z.cursorPos ≤ ((getTries lib z w).1.length : Int)) ∧
      (∀ t : Tick, (t.key = [0x1B, 0x5B, 0x41] ∨ t.key = [0x10]) →
        ∃ z1, iterate lib z t = .next z1 ∧ z1.cursorPos = max 0 (z.cursorPos - 1) ∧
          z1.inputBuffer = z.inputBuffer) ∧
      (∀ t : Tick, (t.key = [0x1B, 0x5B, 0x42] ∨ t.key = [0x0E]) →
        ∃ z1, iterate lib z t = .next z1 ∧
          z1.cursorPos =
            min ((((getTries lib (render lib z t.winsize t.wRender) t.wCount).1.length : Int) + 1) - 1)
              (z.cursorPos + 1) ∧
          z1.inputBuffer = z.inputBuffer) := by
  have hok : cursorOk lib z :=
    cursorOk_runLoop lib ticks _ z (cursorOk_of_zero lib _ rfl) h
  refine ⟨⟨hok.1, fun w => cursor_le_getTries_length lib z w hok⟩, ?_, ?_⟩
  · intro t hk
    have hr := render_fields lib z t.winsize t.wRender
    have hg := getTries_snd_fields lib (render lib z t.winsize t.wRender) t.wCount
    have h0 := hok.1
    unfold iterate
    rw [handleKey_up lib _ t hk]
    unfold keyUp
    split_ifs with c
    · refine ⟨_, rfl, ?_, ?_⟩
      · simp only
        rw [hg.1, hr.1] at c ⊢
        omega
      · simp only
        rw [hg.2.1, hr.2.1]
    · refine ⟨_, rfl, ?_, ?_⟩
      · rw [hg.1, hr.1] at c ⊢
        omega
      · rw [hg.2.1, hr.2.1]
  · intro t hk
    have hr := render_fields lib z t.winsize t.wRender
    have hg := getTries_snd_fields lib (render lib z t.winsize t.wRender) t.wCount
    have hle := cursor_le_getTries_length lib _ t.wCount
      (cursorOk_render lib z t.winsize t.wRender hok)
    rw [hr.1] at hle
    unfold iterate
    rw [handleKey_down lib _ t hk]
    unfold keyDown
    split_ifs with c
    · refine ⟨_, rfl, ?_, ?_⟩
      · simp only
        rw [hg.1, hr.1] at c ⊢
        omega
      · simp only
        rw [hg.2.1, hr.2.1]
    · refine ⟨_, rfl, ?_, ?_⟩
      · rw [hg.1, hr.1] at c ⊢
        omega
      · rw [hg.2.1, hr.2.1]

/-- C5, witness: the query "a" with two matching directories; one Down key
moves the cursor from row 0 to row 1. -/
theorem cursor_invariant_witness :
    runLoop asciiLib (newSelector asciiLib (goStr "a") (goStr "/t")) [exTick [0x0E]]
        = .next { exSelector (goStr "a") 1 with tries := exDirs } ∧
      (0 : Int) ≤ 1 ∧
      ∀ w : World,
        (1 : Int) ≤ ((getTries asciiLib { exSelector (goStr "a") 1 with tries := exDirs } w).1.length
          : Int) :=
  ⟨by decide!,
    (cursor_invariant asciiLib (goStr "a") (goStr "/t") [exTick [0x0E]]
      { exSelector (goStr "a") 1 with tries := exDirs } (by decide!)).1.1,
    (cursor_invariant asciiLib (goStr "a") (goStr "/t") [exTick [0x0E]]
      { exSelector (goStr "a") 1 with tries := exDirs } (by decide!)).1.2⟩

/-- C6, the code at the failing input: a session started with the query "é"
(bytes C3 A9, one character) and given Backspace holds the single byte C3,
which decodes to U+FFFD, while the query without its final character is empty.
For the ASCII query "foo" the result is "fo", and Backspace after a Down key
resets the cursor from 1 to 0. -/
theorem backspace_drops_last_byte :
    runLoop asciiLib (newSelector asciiLib (goStr "é") (goStr "/t")) [exTick [0x7F]]
        = .next { exSelector [0xC3] 0 with tries := exDirs } ∧
      (newSelector asciiLib (goStr "é") (goStr "/t")).inputBuffer = [0xC3, 0xA9] ∧
      runes [0xC3, 0xA9] = [0xE9] ∧
      (runes [0xC3, 0xA9]).dropLast = [] ∧
      runes [0xC3] = [0xFFFD] ∧
      runLoop asciiLib (newSelector asciiLib (goStr "foo") (goStr "/t")) [exTick [0x7F]]
        = .next { exSelector (goStr "fo") 0 with tries := exDirs } ∧
      runLoop asciiLib (newSelector asciiLib (goStr "a") (goStr "/t")) [exTick [0x0E]]
        = .next { exSelector (goStr "a") 1 with tries := exDirs } ∧
      runLoop asciiLib (newSelector asciiLib (goStr "a") (goStr "/t"))
          [exTick [0x0E], exTick [0x7F]]
        = .next { exSelector [] 0 with tries := exDirs } := by
  decide!

/-- C7: on Enter, when the cursor is on the row after the last candidate and the
query is non-empty, the loop ends with a "mkdir" result whose path is
`basePath` joined with `date + "-" + query` in which every space is a hyphen;
when the cursor indexes a candidate, it ends with a "cd" result carrying that
candidate's path. -/
theorem enter_result (lib : GoLib) (s : Selector) (t : Tick)
    (hk : t.key = [0x0D] ∨ t.key = [0x0A]) :
    (s.cursorPos = (((getTries lib (getTries lib s t.wCount).2 t.wEnter).1.length : Nat) : Int) →
        s.inputBuffer ≠ [] →
        handleKey lib s t = .done (some
          { Kind := goStr "mkdir"
            Path := lib.pathJoin s.basePath
              (replaceByte (t.date ++ goStr "-" ++ s.inputBuffer) 0x20 0x2D) }) ∧
        ∀ b ∈ replaceByte (t.date ++ goStr "-" ++ s.inputBuffer) 0x20 0x2D, b ≠ 0x20) ∧
      (∀ (i : Nat) (hi : i < (getTries lib (getTries lib s t.wCount).2 t.wEnter).1.length),
        s.cursorPos = (i : Int) →
        handleKey lib s t = .done (some
          { Kind := goStr "cd"
            Path := ((getTries lib (getTries lib s t.wCount).2 t.wEnter).1.get ⟨i, hi⟩).Path })) := by
  have hg1 := getTries_snd_fields lib s t.wCount
  have hg2 := getTries_snd_fields lib (getTries lib s t.wCount).2 t.wEnter
  rw [handleKey_enter lib s t hk]
  constructor
  · intro hc hq
    refine ⟨?_, replaceByte_no_old _ _ _ (by decide)⟩
    have hq2 : (getTries lib (getTries lib s t.wCount).2 t.wEnter).2.inputBuffer ≠ [] := by
      rw [hg2.2.1, hg1.2.1]
      exact hq
    have hnlt : ¬ (getTries lib (getTries lib s t.wCount).2 t.wEnter).2.cursorPos
        < ((getTries lib (getTries lib s t.wCount).2 t.wEnter).1.length : Int) := by
      rw [hg2.1, hg1.1, hc]
      exact lt_irrefl _
    simp only [keyEnter, if_neg hnlt, handleCreateNew, if_pos hq2, returnSelected, mkdirResult]
    rw [hg2.2.1, hg1.2.1, hg2.2.2, hg1.2.2]
  · intro i hi hc
    have hlt : (getTries lib (getTries lib s t.wCount).2 t.wEnter).2.cursorPos
        < ((getTries lib (getTries lib s t.wCount).2 t.wEnter).1.length : Int) := by
      rw [hg2.1, hg1.1, hc]
      exact_mod_cast hi
    have hn0 : ¬ (getTries lib (getTries lib s t.wCount).2 t.wEnter).2.cursorPos < 0 := by
      rw [hg2.1, hg1.1, hc]
      exact not_lt.mpr (Int.ofNat_nonneg i)
    have hget : (getTries lib (getTries lib s t.wCount).2 t.wEnter).1.get?
        (getTries lib (getTries lib s t.wCount).2 t.wEnter).2.cursorPos.toNat
        = some ((getTries lib (getTries lib s t.wCount).2 t.wEnter).1.get ⟨i, hi⟩) := by
      rw [hg2.1, hg1.1, hc, Int.toNat_ofNat]
      exact List.get?_eq_get hi
    simp only [keyEnter, if_pos hlt, if_neg hn0, hget, returnSelected, handleSelection]

/-- C7, witness: the query "my try" matches no directory, so the cursor 0 is on
the row after the last candidate, and Enter gives "mkdir" for
"/t/2024-05-06-my-try"; with the query "a" and the cursor on row 1, Enter
gives "cd" for the second ranked directory. -/
theorem enter_result_witness :
    ((exTick [0x0D]).key = [0x0D] ∨ (exTick [0x0D]).key = [0x0A]) ∧
      handleKey asciiLib (exSelector (goStr "my try") 0) (exTick [0x0D])
        = .done (some { Kind := goStr "mkdir", Path := goStr "/t/2024-05-06-my-try" }) ∧
      handleKey asciiLib (exSelector (goStr "a") 1) (exTick [0x0D])
        = .done (some { Kind := goStr "cd", Path := goStr "/t/2024-01-01-alpha" }) :=
  ⟨Or.inl rfl,
    ((enter_result asciiLib (exSelector (goStr "my try") 0) (exTick [0x0D]) (Or.inl rfl)).1
      (by decide!) (by decide)).1.trans (by decide!),
    ((enter_result asciiLib (exSelector (goStr "a") 1) (exTick [0x0D]) (Or.inl rfl)).2 1
      (by decide!) (by decide!)).trans (by decide!)⟩

/-- C11 (as amended): for a name with the date-token shape, `calculateScore`
equals `2.0` plus the score without the date-token step when the query is
empty; for a non-empty matching query it equals that score plus
`2.0 * len(qchars)/(lastPos+1) * 10/(len(name)+10)`, an amount strictly
between `0` and `2`: the date bonus is scaled together with the accumulated
match score. -/
theorem dateBonus_scaled_with_match (lib : GoLib) (text query : GoString) (ctime mtime now : ℚ)
    (hs : dashShape text = true) (ha : atoiOk (text.take 4) = true) :
    (query = [] →
        calculateScore lib text query ctime mtime now =
          2 + calculateScoreNoDate lib text query ctime mtime now) ∧
      (query ≠ [] → List.Sublist (lowerRunes lib query) (lowerRunes lib text) →
        calculateScore lib text query ctime mtime now =
            ((2 * scaleFactor (lowerRunes lib query) (matchRun lib text query 0)
                * (10 / ((text.length : ℚ) + 10)) : ℚ) : WithTop ℚ)
              + calculateScoreNoDate lib text query ctime mtime now ∧
          0 < 2 * scaleFactor (lowerRunes lib query) (matchRun lib text query 0)
                * (10 / ((text.length : ℚ) + 10)) ∧
          2 * scaleFactor (lowerRunes lib query) (matchRun lib text query 0)
                * (10 / ((text.length : ℚ) + 10)) < 2) := by
  have hd : dateBonus text = 2 := by
    unfold dateBonus
    rw [hs, ha]
    rfl
  have hlen : 0 < text.length := by
    have := ((dashShape_iff text).mp hs).1
    omega
  constructor
  · intro hq
    have h2 : matchScore lib text query 2 = some 2 := by simp [matchScore, hq]
    have h0 : matchScore lib text query 0 = some 0 := by simp [matchScore, hq]
    unfold calculateScore calculateScoreNoDate
    rw [hd, h2, h0]
    have h := addRecency_add 2 0 ctime mtime now
    rw [add_zero] at h
    exact h
  · intro hq hm
    obtain ⟨sc, h0, h2⟩ := matchScore_shift lib text query 2 hq hm
    obtain ⟨_, hfpos, hfle⟩ := scaleFactor_bounds lib text query 0 hq hm
    have hg1 := lengthFactor_lt_one text hlen
    have hg0 : (0 : ℚ) < 10 / ((text.length : ℚ) + 10) := by
      apply div_pos (by norm_num)
      have : (0 : ℚ) ≤ (text.length : ℚ) := Nat.cast_nonneg _
      linarith
    refine ⟨?_, ?_, ?_⟩
    · unfold calculateScore calculateScoreNoDate
      rw [hd, h2, h0]
      exact addRecency_add _ sc ctime mtime now
    · exact mul_pos (mul_pos (by norm_num) hfpos) hg0
    · have h1 : scaleFactor (lowerRunes lib query) (matchRun lib text query 0)
          * (10 / ((text.length : ℚ) + 10)) < 1 := by
        calc scaleFactor (lowerRunes lib query) (matchRun lib text query 0)
              * (10 / ((text.length : ℚ) + 10))
            ≤ 1 * (10 / ((text.length : ℚ) + 10)) :=
              mul_le_mul_of_nonneg_right hfle (le_of_lt hg0)
          _ < 1 := by rw [one_mul]; exact hg1
      linarith

/-- C11, witness: the name "2024-01-01-a" with the query "a" scores `5/33`,
which is `5/66` for the scaled date bonus plus `5/66` without the date step. -/
theorem dateBonus_scaled_with_match_witness :
    dashShape (goStr "2024-01-01-a") = true ∧
      atoiOk ((goStr "2024-01-01-a").take 4) = true ∧
      calculateScore asciiLib (goStr "2024-01-01-a") (goStr "a") 0 0 0 =
        ((2 * scaleFactor (lowerRunes asciiLib (goStr "a"))
              (matchRun asciiLib (goStr "2024-01-01-a") (goStr "a") 0)
            * (10 / (((goStr "2024-01-01-a").length : ℚ) + 10)) : ℚ) : WithTop ℚ)
          + calculateScoreNoDate asciiLib (goStr "2024-01-01-a") (goStr "a") 0 0 0 :=
  ⟨by decide, by decide,
    ((dateBonus_scaled_with_match asciiLib (goStr "2024-01-01-a") (goStr "a") 0 0 0
      (by decide) (by decide)).2 (by decide) (by decide)).1⟩

/-- C11, counterexample to the claim as written: the name "2024-01-01-a" has
the date-token shape and the query "a" matches it, yet the score `5/33` is not
`2.0` plus the score `5/66` obtained without the date-token step. -/
theorem dateBonus_flat_counterexample :
    dashShape (goStr "2024-01-01-a") = true ∧
      atoiOk ((goStr "2024-01-01-a").take 4) = true ∧
      goStr "a" ≠ [] ∧
      List.Sublist (lowerRunes asciiLib (goStr "a")) (lowerRunes asciiLib (goStr "2024-01-01-a")) ∧
      calculateScore asciiLib (goStr "2024-01-01-a") (goStr "a") 0 0 0
        = ((5 / 33 : ℚ) : WithTop ℚ) ∧
      calculateScoreNoDate asciiLib (goStr "2024-01-01-a") (goStr "a") 0 0 0
        = ((5 / 66 : ℚ) : WithTop ℚ) ∧
      calculateScore asciiLib (goStr "2024-01-01-a") (goStr "a") 0 0 0
        ≠ 2 + calculateScoreNoDate asciiLib (goStr "2024-01-01-a") (goStr "a") 0 0 0 := by
  decide!

/-- C12, the code at the failing input: a session started with the search
string "a/../../x" under the base path "/t" and given Enter returns a "mkdir"
result for "/x".  The synthesized name "2024-05-06-a/../../x" contains `/`,
and the joined path does not lie under "/t/". -/
theorem createNew_leaves_basePath :
    (newSelector unixLib (goStr "a/../../x") (goStr "/t")).inputBuffer = goStr "a/../../x" ∧
      replaceByte (goStr "2024-05-06" ++ goStr "-" ++ goStr "a/../../x") 0x20 0x2D
        = goStr "2024-05-06-a/../../x" ∧
      0x2F ∈ replaceByte (goStr "2024-05-06" ++ goStr "-" ++ goStr "a/../../x") 0x20 0x2D ∧
      filepathJoin (goStr "/t") (goStr "2024-05-06-a/../../x") = goStr "/x" ∧
      runLoop unixLib (newSelector unixLib (goStr "a/../../x") (goStr "/t")) [exTick [0x0D]]
        = .done (some { Kind := goStr "mkdir", Path := goStr "/x" }) ∧
      ¬ (goStr "/t/" <+: goStr "/x") := by
  decide!

end Try
